import Mathlib

/-!
Verification of the review-overlay core (`useCmeLineReplace.ts`) of
`codemirror-essentials`.  The document of the host editing surface is
modelled as a list of characters; offsets are 0-based indices into that
list, line numbers are 1-indexed.  The host surface primitives consumed by
the hook (line lookup, slicing, change application, position remapping,
transaction dispatch) are modelled after their documented CodeMirror
semantics; the hook itself and its state field are translated line by line
from the source.
-/

namespace CmeLineReplace

/-- Characters of a document; an offset is a 0-based index into this list. -/
abbrev DocText := List Char

/-- Lines of a document, splitting at every newline, mirroring the host
document's line index (and JS `split("\n")`): the empty document has one
empty line, a trailing newline yields a final empty line. -/
def splitLines : DocText → List DocText
  | [] => [[]]
  | c :: cs =>
    match splitLines cs with
    | [] => [[]]
    | l :: ls => if c = '\n' then [] :: l :: ls else (c :: l) :: ls

/-- Inverse of `splitLines`: rejoin lines with a newline separator. -/
def joinLines : List DocText → DocText
  | [] => []
  | [l] => l
  | l :: l2 :: ls => l ++ '\n' :: joinLines (l2 :: ls)

/-- Total number of lines of a document (`doc.lines`); always at least 1. -/
def lineCount (d : DocText) : Nat := (splitLines d).length

/-- Start offset of the 0-indexed `i`-th entry of a line list. -/
def lineStartAux : List DocText → Nat → Nat
  | _, 0 => 0
  | [], _ + 1 => 0
  | l :: ls, i + 1 => l.length + 1 + lineStartAux ls i

/-- Start offset of 1-indexed line `n` (`doc.line(n).from`). -/
def lineFrom (d : DocText) (n : Nat) : Nat := lineStartAux (splitLines d) (n - 1)

/-- Length of 1-indexed line `n` (without its newline). -/
def lineLen (d : DocText) (n : Nat) : Nat := ((splitLines d).getD (n - 1) []).length

/-- End offset of 1-indexed line `n` (`doc.line(n).to`), excluding the newline. -/
def lineTo (d : DocText) (n : Nat) : Nat := lineFrom d n + lineLen d n

/-- Lookup of a 1-indexed line (`doc.line(n)`), returning its `(from, to)`
offsets; `none` models the `RangeError` the host document raises when `n`
lies outside `[1, doc.lines]`. -/
def lineAt? (d : DocText) (n : Int) : Option (Nat × Nat) :=
  if 1 ≤ n ∧ n ≤ (lineCount d : Int) then some (lineFrom d n.toNat, lineTo d n.toNat)
  else none

/-- Substring between two offsets (`doc.sliceString(a, b)`); like the host
primitive it clamps out-of-range offsets. -/
def sliceString (d : DocText) (a b : Nat) : DocText := (d.take b).drop a

/-- A single document change (`ChangeSpec {from, to, insert}`): replace the
half-open range `[from, to)` by `insert`. -/
structure Change where
  «from» : Nat
  «to» : Nat
  insert : DocText
deriving DecidableEq, Repr

/-- Position mapping through a change set with the default (backward)
association, following CodeMirror's `ChangeDesc.mapPos` for a sorted,
non-overlapping change set (the only kind this extension dispatches): a
position before a change is untouched, a position strictly inside a
replaced range collapses to the range start, a position at or after the end
of a change is shifted by that change's length delta; a position at a pure
insertion point stays before the insertion. -/
def mapPos : List Change → Nat → Nat
  | [], pos => pos
  | c :: rest, pos =>
    if pos ≤ c.«from» then pos
    else if pos < c.«to» then c.«from»
    else mapPos rest pos + c.insert.length - (c.«to» - c.«from»)

/-- Application of a single change, coordinates in the given document. -/
def applyChange (d : DocText) (c : Change) : DocText :=
  d.take c.«from» ++ c.insert ++ d.drop c.«to»

/-- Application of a sorted batch of changes.  As in the host surface, all
coordinates refer to the document as it was before the whole batch;
applying the later (rightmost) changes first keeps earlier coordinates
valid. -/
def applyChanges (d : DocText) : List Change → DocText
  | [] => d
  | c :: rest => applyChange (applyChanges d rest) c

/-- Host-surface validity check on every change of a transaction
(`ChangeSet.of` raises `RangeError` unless `from ≤ to ≤ doc.length`). -/
def changesInRange (len : Nat) (cs : List Change) : Bool :=
  cs.all fun c => decide (c.«from» ≤ c.«to») && decide (c.«to» ≤ len)

/-- Sortedness of a change batch: ranges are non-overlapping and listed in
ascending document order, each starting at or after `lb`.  The host surface
normalizes out-of-order batches by composition; this model only accepts
sorted batches, which covers every batch the hook constructs under the
spec's ascending-order assumption. -/
def changesChain : Nat → List Change → Bool
  | _, [] => true
  | lb, c :: rest => decide (lb ≤ c.«from») && decide (c.«from» ≤ c.«to») && changesChain c.«to» rest

/-- Internal metadata for one tracked review (interface `ReviewMetadata`). -/
structure ReviewMetadata where
  id : String
  rangeFrom : Nat
  rangeTo : Nat
  originalText : DocText
  insertedFrom : Nat
  insertedTo : Nat
  rangeClassName : Option String
  improvedClassName : Option String
  originalFromLine : Option Int
  originalToLine : Option Int
  improvedLineCount : Option Nat
deriving DecidableEq, Repr

/-- Decorations contributed by the field: the block widget replacing the
original range (carrying the review id and the captured original text) and
the mark over the inserted improved range (carrying the review id in its
`data-review-id` attribute). -/
inductive Deco where
  | widget (id : String) (code : DocText) (className : String) (dFrom dTo : Nat)
  | mark (id : String) (className : String) (dFrom dTo : Nat)
deriving DecidableEq, Repr

/-- Review id carried by a decoration (widget `id` field, or the mark's
`data-review-id` attribute). -/
def Deco.reviewId : Deco → String
  | .widget i _ _ _ _ => i
  | .mark i _ _ _ => i

/-- Remap of a decoration's endpoints through a change set
(`decorations.map(tr.changes)`); the host range set also drops ranges that
collapse entirely inside a deletion, which no claim depends on. -/
def Deco.mapThrough (cs : List Change) : Deco → Deco
  | .widget i code cl a b => .widget i code cl (mapPos cs a) (mapPos cs b)
  | .mark i cl a b => .mark i cl (mapPos cs a) (mapPos cs b)

/-- The three state effects the hook dispatches. -/
inductive ReviewEffect where
  | addReviewMetadataEffect (meta : ReviewMetadata)
  | removeReviewEffect (id : String)
  | clearReviewsEffect
deriving DecidableEq, Repr

/-- A dispatched transaction: a batch of document changes plus effects. -/
structure Transaction where
  changes : List Change
  effects : List ReviewEffect
deriving DecidableEq, Repr

/-- Value of the review state field: current decorations and metadata. -/
structure ReviewFieldState where
  decorations : List Deco
  metadata : List ReviewMetadata
deriving DecidableEq, Repr

/-- Per-transaction remap of one record's four offsets
(`tr.changes.mapPos(...)` in `reviewField.update`); all other fields are
spread unchanged. -/
def remapMeta (cs : List Change) (meta : ReviewMetadata) : ReviewMetadata :=
  { meta with
    rangeFrom := mapPos cs meta.rangeFrom
    rangeTo := mapPos cs meta.rangeTo
    insertedFrom := mapPos cs meta.insertedFrom
    insertedTo := mapPos cs meta.insertedTo }

/-- Decorations created when an add effect is processed: a block replace
widget over the original range when `rangeClassName` is set, and a mark
over the inserted range when `improvedClassName` is set. -/
def newDecorationsFor (meta : ReviewMetadata) : List Deco :=
  (match meta.rangeClassName with
   | some cl => [Deco.widget meta.id meta.originalText cl meta.rangeFrom meta.rangeTo]
   | none => []) ++
  (match meta.improvedClassName with
   | some cl => [Deco.mark meta.id cl meta.insertedFrom meta.insertedTo]
   | none => [])

/-- Effect handling of `reviewField.update`: add pushes the record and its
decorations; remove, when the id is present, filters out every decoration
and every record carrying that id; clear resets both to empty. -/
def applyReviewEffect (st : ReviewFieldState) : ReviewEffect → ReviewFieldState
  | .addReviewMetadataEffect meta =>
    { decorations := st.decorations ++ newDecorationsFor meta
      metadata := st.metadata ++ [meta] }
  | .removeReviewEffect i =>
    match st.metadata.find? (fun m => m.id == i) with
    | some _ =>
      { decorations := st.decorations.filter (fun dc => !(dc.reviewId == i))
        metadata := st.metadata.filter (fun m => !(m.id == i)) }
    | none => st
  | .clearReviewsEffect => { decorations := [], metadata := [] }

/-- The `reviewField.update` reducer: first map decorations through the
transaction's changes and, when the document changed, remap every record's
offsets; then process the transaction's effects in order. -/
def reviewFieldUpdate (st : ReviewFieldState) (tr : Transaction) : ReviewFieldState :=
  let mapped : ReviewFieldState :=
    { decorations := st.decorations.map (Deco.mapThrough tr.changes)
      metadata :=
        if tr.changes.isEmpty then st.metadata
        else st.metadata.map (remapMeta tr.changes) }
  tr.effects.foldl applyReviewEffect mapped

/-- An attached editor: its document plus the review field contents. -/
structure EditorState where
  doc : DocText
  field : ReviewFieldState
deriving DecidableEq, Repr

/-- Transaction dispatch (`view.dispatch`): the surface validates every
change range against the current document (raising otherwise, modelled as
`none`), applies the changes, and runs the field reducer. -/
def dispatch (s : EditorState) (tr : Transaction) : Option EditorState :=
  if changesInRange s.doc.length tr.changes && changesChain 0 tr.changes then
    some { doc := applyChanges s.doc tr.changes
           field := reviewFieldUpdate s.field tr }
  else none

/-- Caller-facing range of a review request (interface `RangeInterface`). -/
structure RangeInterface where
  «from» : Nat
  «to» : Nat
  fromLine : Int
  toLine : Int
deriving DecidableEq, Repr

/-- Caller-facing review request (interface `ReviewInterface`). -/
structure ReviewInterface where
  range : RangeInterface
  improvedText : DocText
  rangeClassName : Option String
  improvedClassName : Option String
  id : Option String
deriving DecidableEq, Repr

/-- Line offset accumulated from existing reviews whose stored original
to-line precedes this request's from-line (the loop at the top of
`addReview`). -/
def lineOffsetFor (existingMetadata : List ReviewMetadata) (fromLine : Int) : Nat :=
  existingMetadata.foldl
    (fun lineOffset meta =>
      let existingOriginalToLine := meta.originalToLine.getD 0
      if 0 < existingOriginalToLine ∧ fromLine > existingOriginalToLine then
        lineOffset + meta.improvedLineCount.getD 0
      else lineOffset)
    0

/-- Clamping of an adjusted line number into `[1, docLines]`
(`Math.max(1, Math.min(adjusted, doc.lines))`). -/
def clampLine (adjusted : Int) (docLines : Nat) : Nat :=
  (max 1 (min adjusted (docLines : Int))).toNat

/-- The `addReview` operation on an attached editor.  `genId` stands in for
the environment-dependent generated identifier `review-${Date.now()}` used
when the request carries no id. -/
def addReviewOn (s : EditorState) (review : ReviewInterface) (genId : String) : Option EditorState :=
  let doc := s.doc
  let id := review.id.getD genId
  let existingMetadata := s.field.metadata
  let lineOffset := lineOffsetFor existingMetadata review.range.fromLine
  let adjustedFromLine := review.range.fromLine + (lineOffset : Int)
  let adjustedToLine := review.range.toLine + (lineOffset : Int)
  let clampedFromLine := clampLine adjustedFromLine (lineCount doc)
  let clampedToLine := clampLine adjustedToLine (lineCount doc)
  match lineAt? doc (clampedFromLine : Int), lineAt? doc (clampedToLine : Int) with
  | some fromLineObj, some toLineObj =>
    let rangeFrom := fromLineObj.1
    let rangeTo := toLineObj.2
    let insertPos := toLineObj.2
    let originalText := sliceString doc rangeFrom rangeTo
    let textToInsert := '\n' :: review.improvedText
    let improvedLineCount := lineCount review.improvedText
    let meta : ReviewMetadata := {
      id := id
      rangeFrom := rangeFrom
      rangeTo := rangeTo
      originalText := originalText
      insertedFrom := insertPos + 1
      insertedTo := insertPos + textToInsert.length
      rangeClassName := review.rangeClassName
      improvedClassName := review.improvedClassName
      originalFromLine := some review.range.fromLine
      originalToLine := some review.range.toLine
      improvedLineCount := some improvedLineCount }
    dispatch s { changes := [⟨insertPos, insertPos, textToInsert⟩]
                 effects := [.addReviewMetadataEffect meta] }
  | _, _ => none

/-- The change/metadata accumulation loop of `addReviews`: each request's
insert position is the end of its to-line in the pre-batch document plus
the accumulated length of all earlier insertion texts; `none` models the
`RangeError` of `doc.line` on an out-of-range to-line.  `genId idx` stands
in for the generated id `review-${Date.now()}-${Math.random()}`. -/
def addReviewsPlan (doc : DocText) (genId : Nat → String) :
    List ReviewInterface → Nat → Nat → Option (List Change × List ReviewMetadata)
  | [], _, _ => some ([], [])
  | review :: rest, accumulatedOffset, idx =>
    match lineAt? doc review.range.toLine with
    | none => none
    | some toLineObj =>
      let insertPos := toLineObj.2 + accumulatedOffset
      let originalText := sliceString doc review.range.«from» review.range.«to»
      let textToInsert := '\n' :: review.improvedText
      let meta : ReviewMetadata := {
        id := review.id.getD (genId idx)
        rangeFrom := review.range.«from» + accumulatedOffset
        rangeTo := review.range.«to» + accumulatedOffset
        originalText := originalText
        insertedFrom := insertPos + 1
        insertedTo := insertPos + textToInsert.length
        rangeClassName := review.rangeClassName
        improvedClassName := review.improvedClassName
        originalFromLine := none
        originalToLine := none
        improvedLineCount := none }
      match addReviewsPlan doc genId rest (accumulatedOffset + textToInsert.length) (idx + 1) with
      | none => none
      | some (changes, metas) => some (⟨insertPos, insertPos, textToInsert⟩ :: changes, meta :: metas)

/-- The `addReviews` operation on an attached editor: build all changes and
effects in one pass, then dispatch them as a single transaction. -/
def addReviewsOn (s : EditorState) (reviews : List ReviewInterface) (genId : Nat → String) :
    Option EditorState :=
  match addReviewsPlan s.doc genId reviews 0 0 with
  | none => none
  | some (changes, metas) =>
    dispatch s { changes := changes, effects := metas.map ReviewEffect.addReviewMetadataEffect }

/-- The `removeReview` operation on an attached editor: dispatch a remove
effect only, with no document changes. -/
def removeReviewOn (s : EditorState) (i : String) : Option EditorState :=
  dispatch s { changes := [], effects := [.removeReviewEffect i] }

/-- The `clearReviews` operation on an attached editor: dispatch a clear
effect only, with no document changes. -/
def clearReviewsOn (s : EditorState) : Option EditorState :=
  dispatch s { changes := [], effects := [.clearReviewsEffect] }

/-- The `getReviewMetadata` lookup on an attached editor: first record with
the given id. -/
def getReviewMetadataOn (s : EditorState) (i : String) : Option ReviewMetadata :=
  s.field.metadata.find? (fun m => m.id == i)

/-- The `acceptReview` operation on an attached editor: when the id is
known, delete `[rangeFrom, rangeTo + 1)` (the original range plus the
newline separator after it) and remove the record. -/
def acceptReviewOn (s : EditorState) (i : String) : Option EditorState :=
  match getReviewMetadataOn s i with
  | none => some s
  | some meta =>
    dispatch s { changes := [⟨meta.rangeFrom, meta.rangeTo + 1, []⟩]
                 effects := [.removeReviewEffect i] }

/-- The `rejectReview` operation on an attached editor: when the id is
known, delete `[insertedFrom - 1, insertedTo)` (the inserted text including
its leading newline) and remove the record. -/
def rejectReviewOn (s : EditorState) (i : String) : Option EditorState :=
  match getReviewMetadataOn s i with
  | none => some s
  | some meta =>
    dispatch s { changes := [⟨meta.insertedFrom - 1, meta.insertedTo, []⟩]
                 effects := [.removeReviewEffect i] }

/-- Hook-level `addReview`: `view = none` models an unattached surface, on
which the call is a silent no-op.  The outer `Option` distinguishes a
completed call (`some`, carrying the possibly unchanged view state) from a
raised exception (`none`). -/
def addReview (view : Option EditorState) (review : ReviewInterface) (genId : String) :
    Option (Option EditorState) :=
  match view with
  | none => some none
  | some s => (addReviewOn s review genId).map some

/-- Hook-level `addReviews`; see `addReview` for the result convention. -/
def addReviews (view : Option EditorState) (reviews : List ReviewInterface) (genId : Nat → String) :
    Option (Option EditorState) :=
  match view with
  | none => some none
  | some s => (addReviewsOn s reviews genId).map some

/-- Hook-level `removeReview`; see `addReview` for the result convention. -/
def removeReview (view : Option EditorState) (i : String) : Option (Option EditorState) :=
  match view with
  | none => some none
  | some s => (removeReviewOn s i).map some

/-- Hook-level `clearReviews`; see `addReview` for the result convention. -/
def clearReviews (view : Option EditorState) : Option (Option EditorState) :=
  match view with
  | none => some none
  | some s => (clearReviewsOn s).map some

/-- Hook-level `acceptReview`; see `addReview` for the result convention. -/
def acceptReview (view : Option EditorState) (i : String) : Option (Option EditorState) :=
  match view with
  | none => some none
  | some s => (acceptReviewOn s i).map some

/-- Hook-level `rejectReview`; see `addReview` for the result convention. -/
def rejectReview (view : Option EditorState) (i : String) : Option (Option EditorState) :=
  match view with
  | none => some none
  | some s => (rejectReviewOn s i).map some

/-- Hook-level `getReviewMetadata`: `undefined` on an unattached surface. -/
def getReviewMetadata (view : Option EditorState) (i : String) : Option ReviewMetadata :=
  match view with
  | none => none
  | some s => getReviewMetadataOn s i

/-! Derived characterizations of `addReview`'s intermediate values, used to
state properties of the operation; they are proved to agree with
`addReviewOn` below. -/

/-- Clamped, offset-adjusted from-line that `addReview` resolves. -/
def addReviewClampedFromLine (s : EditorState) (review : ReviewInterface) : Nat :=
  clampLine (review.range.fromLine + (lineOffsetFor s.field.metadata review.range.fromLine : Int))
    (lineCount s.doc)

/-- Clamped, offset-adjusted to-line that `addReview` resolves. -/
def addReviewClampedToLine (s : EditorState) (review : ReviewInterface) : Nat :=
  clampLine (review.range.toLine + (lineOffsetFor s.field.metadata review.range.fromLine : Int))
    (lineCount s.doc)

/-- Offset at which `addReview` inserts: the end of the resolved to-line. -/
def addReviewInsertPos (s : EditorState) (review : ReviewInterface) : Nat :=
  lineTo s.doc (addReviewClampedToLine s review)

/-- The metadata record `addReview` creates. -/
def addReviewNewMeta (s : EditorState) (review : ReviewInterface) (genId : String) :
    ReviewMetadata :=
  { id := review.id.getD genId
    rangeFrom := lineFrom s.doc (addReviewClampedFromLine s review)
    rangeTo := addReviewInsertPos s review
    originalText := sliceString s.doc (lineFrom s.doc (addReviewClampedFromLine s review))
      (addReviewInsertPos s review)
    insertedFrom := addReviewInsertPos s review + 1
    insertedTo := addReviewInsertPos s review + ('\n' :: review.improvedText).length
    rangeClassName := review.rangeClassName
    improvedClassName := review.improvedClassName
    originalFromLine := some review.range.fromLine
    originalToLine := some review.range.toLine
    improvedLineCount := some (lineCount review.improvedText) }

/-- Offset ordering invariant of one review record (spec section 3). -/
abbrev MetaChain (m : ReviewMetadata) : Prop :=
  m.rangeFrom ≤ m.rangeTo ∧ m.rangeTo ≤ m.insertedFrom ∧ m.insertedFrom ≤ m.insertedTo

/-- An editor attached to document `d` with an empty review registry. -/
def freshEditor (d : DocText) : EditorState :=
  { doc := d, field := { decorations := [], metadata := [] } }

/-- Request with span given by agreeing line numbers and offsets over the
document `d`, no decoration classes, and an explicit id. -/
def plainRequest (d : DocText) (nf nt : Nat) (improved : DocText) (i : String) :
    ReviewInterface :=
  { range := { «from» := lineFrom d nf, «to» := lineTo d nt
               fromLine := (nf : Int), toLine := (nt : Int) }
    improvedText := improved
    rangeClassName := none
    improvedClassName := none
    id := some i }

/-- Document of the spec's concrete scenarios 1 to 4. -/
def scenarioDoc : DocText := "Line 1\nLine 2\nLine 3".toList

/-- Claim C1 property: on an empty registry, `rejectReview` right after
`addReview` restores the original document exactly. -/
def RejectRoundTrip (d : DocText) (nf nt : Nat) (improved : DocText)
    (rcl icl : Option String) (i g : String) : Prop :=
  ∃ s1 s2,
    addReviewOn (freshEditor d)
      { plainRequest d nf nt improved i with rangeClassName := rcl, improvedClassName := icl } g
      = some s1 ∧
    rejectReviewOn s1 i = some s2 ∧
    s2.doc = d

/-- Claim C2 property: on an empty registry, `acceptReview` right after
`addReview` leaves the original document with the span replaced by the
improved text (separator supplied by the text following the span), and the
record is gone. -/
def AcceptRoundTrip (d : DocText) (nf nt : Nat) (improved : DocText)
    (rcl icl : Option String) (i g : String) : Prop :=
  ∃ s1 s2,
    addReviewOn (freshEditor d)
      { plainRequest d nf nt improved i with rangeClassName := rcl, improvedClassName := icl } g
      = some s1 ∧
    acceptReviewOn s1 i = some s2 ∧
    s2.doc = d.take (lineFrom d nf) ++ improved ++ d.drop (lineTo d nt) ∧
    getReviewMetadataOn s2 i = none

/-- Claim C3 (amended) property: `addReview` completes, resolves the
offset-adjusted clamped line numbers against the current document, captures
`originalText` as the current-document substring between the resolved
offsets, and inserts a newline plus the improved text at the end of the
resolved to-line. -/
def AddReviewResolves (s : EditorState) (review : ReviewInterface) (g : String) : Prop :=
  ∃ s1, addReviewOn s review g = some s1 ∧
    s1.doc = s.doc.take (addReviewInsertPos s review) ++ '\n' :: review.improvedText
      ++ s.doc.drop (addReviewInsertPos s review) ∧
    ∃ m, getReviewMetadataOn s1 (review.id.getD g) = some m ∧
      m.rangeFrom = lineFrom s.doc (addReviewClampedFromLine s review) ∧
      m.rangeTo = lineTo s.doc (addReviewClampedToLine s review) ∧
      m.originalText = sliceString s.doc (lineFrom s.doc (addReviewClampedFromLine s review))
        (lineTo s.doc (addReviewClampedToLine s review)) ∧
      m.insertedFrom = addReviewInsertPos s review + 1 ∧
      m.insertedTo = addReviewInsertPos s review + 1 + review.improvedText.length

/-- Scenario-1 request of the spec (`lines 1..1`, `"New Line 1"`, id `r1`). -/
def scenarioReq1 : ReviewInterface := plainRequest scenarioDoc 1 1 "New Line 1".toList "r1"

/-- Batch request A of scenario 4 (`lines 1..1`, `"X"`). -/
def scenarioReqA : ReviewInterface := plainRequest scenarioDoc 1 1 "X".toList "a"

/-- Batch request B of scenario 4 (`lines 3..3`, `"Y"`). -/
def scenarioReqB : ReviewInterface := plainRequest scenarioDoc 3 3 "Y".toList "b"

/-- Two-line document used to exhibit the line-offset adjustment of
`addReview` on a non-empty registry. -/
def docAB : DocText := "A\nB".toList

/-- First request on `docAB`: review of line 1 with improved text `"X"`. -/
def reqX : ReviewInterface := plainRequest docAB 1 1 "X".toList "r1"

/-- Second request on `docAB`: review of line 2 (line numbers of the
original document) with improved text `"Y"`. -/
def reqY : ReviewInterface := plainRequest docAB 2 2 "Y".toList "r2"

/-- Request whose line numbers (5..5) lie beyond the three lines of
`scenarioDoc`, used for the out-of-range claims. -/
def reqBeyond : ReviewInterface := plainRequest scenarioDoc 5 5 "Z".toList "z"

/-- Record that `addReview` creates for a request over agreeing lines
`nf..nt` on an empty registry (proved below); spelled with the resolved
offsets of the attached document. -/
def freshMeta (d : DocText) (nf nt : Nat) (improved : DocText)
    (rcl icl : Option String) (i : String) : ReviewMetadata :=
  { id := i
    rangeFrom := lineFrom d nf
    rangeTo := lineTo d nt
    originalText := sliceString d (lineFrom d nf) (lineTo d nt)
    insertedFrom := lineTo d nt + 1
    insertedTo := lineTo d nt + ('\n' :: improved).length
    rangeClassName := rcl
    improvedClassName := icl
    originalFromLine := some (nf : Int)
    originalToLine := some (nt : Int)
    improvedLineCount := some (lineCount improved) }

/-- Claim C5 property for one record `m` and one edit `E` on document `d`:
the per-transaction remap sends every record through `remapMeta`; when `E`
lies entirely before an offset, that offset is adjusted by exactly `E`'s
length delta (stated additively: `new + E.to = old + E.from + |insert|`);
when `E` lies entirely after the record, every offset is unchanged; in both
cases the remapped ranges still carry the same text in the edited document
as the old ranges did in the old document. -/
def UnrelatedEditRemapSpec (d : DocText) (m : ReviewMetadata) (E : Change) : Prop :=
  (∀ fld : ReviewFieldState,
    (reviewFieldUpdate fld { changes := [E], effects := [] }).metadata
      = fld.metadata.map (remapMeta [E])) ∧
  ((E.«to» ≤ m.rangeFrom ∧ (E.«from» < E.«to» ∨ E.«to» < m.rangeFrom) →
    ((remapMeta [E] m).rangeFrom + E.«to» = m.rangeFrom + E.«from» + E.insert.length ∧
     (remapMeta [E] m).rangeTo + E.«to» = m.rangeTo + E.«from» + E.insert.length ∧
     (remapMeta [E] m).insertedFrom + E.«to» = m.insertedFrom + E.«from» + E.insert.length ∧
     (remapMeta [E] m).insertedTo + E.«to» = m.insertedTo + E.«from» + E.insert.length) ∧
    sliceString (applyChange d E) (remapMeta [E] m).rangeFrom (remapMeta [E] m).rangeTo
      = sliceString d m.rangeFrom m.rangeTo ∧
    sliceString (applyChange d E) (remapMeta [E] m).insertedFrom (remapMeta [E] m).insertedTo
      = sliceString d m.insertedFrom m.insertedTo)) ∧
  ((m.insertedTo ≤ E.«from» →
    ((remapMeta [E] m).rangeFrom = m.rangeFrom ∧
     (remapMeta [E] m).rangeTo = m.rangeTo ∧
     (remapMeta [E] m).insertedFrom = m.insertedFrom ∧
     (remapMeta [E] m).insertedTo = m.insertedTo) ∧
    sliceString (applyChange d E) (remapMeta [E] m).rangeFrom (remapMeta [E] m).rangeTo
      = sliceString d m.rangeFrom m.rangeTo ∧
    sliceString (applyChange d E) (remapMeta [E] m).insertedFrom (remapMeta [E] m).insertedTo
      = sliceString d m.insertedFrom m.insertedTo))

/-- Claim C10 property: adding two records with the same id keeps both, a
lookup returns the one added first, and a single remove deletes every
record and every decoration carrying that id. -/
def DupIdBehavior (st : ReviewFieldState) (m1 m2 : ReviewMetadata) (i : String) : Prop :=
  let st2 := reviewFieldUpdate (reviewFieldUpdate st
      { changes := [], effects := [.addReviewMetadataEffect m1] })
    { changes := [], effects := [.addReviewMetadataEffect m2] }
  let st3 := reviewFieldUpdate st2 { changes := [], effects := [.removeReviewEffect i] }
  m1 ∈ st2.metadata ∧ m2 ∈ st2.metadata ∧
  st2.metadata.find? (fun m => m.id == i) = some m1 ∧
  st3.metadata = st.metadata ∧
  (∀ dc ∈ st3.decorations, dc.reviewId ≠ i)

/-! Basic facts about the line model of the host document. -/

theorem splitLines_ne_nil : ∀ d : DocText, splitLines d ≠ []
  | [] => by simp [splitLines]
  | c :: cs => by
    unfold splitLines
    cases h : splitLines cs with
    | nil => simp
    | cons l ls => by_cases hc : c = '\n' <;> simp [hc]

theorem lineCount_pos (d : DocText) : 1 ≤ lineCount d := by
  unfold lineCount
  exact List.length_pos.mpr (splitLines_ne_nil d)

theorem joinLines_splitLines : ∀ d : DocText, joinLines (splitLines d) = d
  | [] => rfl
  | c :: cs => by
    have ih := joinLines_splitLines cs
    unfold splitLines
    cases h : splitLines cs with
    | nil => exact absurd h (splitLines_ne_nil cs)
    | cons l ls =>
      rw [h] at ih
      dsimp only
      by_cases hc : c = '\n'
      · subst hc
        simp only [if_pos rfl, joinLines, List.nil_append]
        rw [ih]
      · rw [if_neg hc]
        cases ls with
        | nil =>
          simp only [joinLines] at ih ⊢
          rw [ih]
        | cons l2 ls2 =>
          simp only [joinLines] at ih ⊢
          rw [List.cons_append, ih]

theorem lineStartAux_add_le :
    ∀ (L : List DocText) (i : Nat), i < L.length →
      lineStartAux L i + (L.getD i []).length ≤ (joinLines L).length
  | [], i, h => by simp at h
  | [l], 0, _ => by simp [lineStartAux, joinLines]
  | [_], i + 1, h => by simp at h
  | l :: l2 :: ls, 0, _ => by
    simp [lineStartAux, joinLines]
  | l :: l2 :: ls, i + 1, h => by
    have ih := lineStartAux_add_le (l2 :: ls) i (by simpa using h)
    simp only [lineStartAux, joinLines, List.length_append, List.length_cons,
      List.getD_cons_succ] at ih ⊢
    omega

theorem lineTo_le_length (d : DocText) (n : Nat) (h2 : n ≤ lineCount d) :
    lineTo d n ≤ d.length := by
  have h := lineStartAux_add_le (splitLines d) (n - 1)
    (by unfold lineCount at h2; have := lineCount_pos d; unfold lineCount at this; omega)
  rw [joinLines_splitLines] at h
  unfold lineTo lineFrom lineLen
  exact h

theorem lineStartAux_mono : ∀ (L : List DocText) (i j : Nat), i ≤ j →
      lineStartAux L i ≤ lineStartAux L j
  | [], i, j, _ => by cases i <;> cases j <;> simp [lineStartAux]
  | _ :: _, 0, j, _ => by cases j <;> simp [lineStartAux]
  | _ :: _, _ + 1, 0, h => by omega
  | l :: ls, i + 1, j + 1, h => by
    have := lineStartAux_mono ls i j (by omega)
    simp only [lineStartAux]
    omega

theorem lineFrom_mono (d : DocText) {n m : Nat} (h : n ≤ m) : lineFrom d n ≤ lineFrom d m :=
  lineStartAux_mono (splitLines d) (n - 1) (m - 1) (by omega)

theorem lineFrom_le_lineTo (d : DocText) (n : Nat) : lineFrom d n ≤ lineTo d n :=
  Nat.le_add_right _ _

/-! Facts about line-number clamping and lookup. -/

theorem one_le_clampLine (x : Int) (L : Nat) : 1 ≤ clampLine x L := by
  unfold clampLine; omega

theorem clampLine_le (x : Int) (L : Nat) (h : 1 ≤ L) : clampLine x L ≤ L := by
  unfold clampLine; omega

theorem clampLine_mono {x y : Int} (L : Nat) (h : x ≤ y) : clampLine x L ≤ clampLine y L := by
  unfold clampLine; omega

theorem clampLine_coe (n L : Nat) (h1 : 1 ≤ n) (h2 : n ≤ L) : clampLine (n : Int) L = n := by
  unfold clampLine; omega

theorem lineAt?_coe (d : DocText) (n : Nat) (h1 : 1 ≤ n) (h2 : n ≤ lineCount d) :
    lineAt? d (n : Int) = some (lineFrom d n, lineTo d n) := by
  unfold lineAt?
  rw [if_pos ⟨by exact_mod_cast h1, by exact_mod_cast h2⟩]
  simp

/-! Facts about position mapping through a sorted change set. -/

theorem mapPos_ge : ∀ (cs : List Change) (lb : Nat), changesChain lb cs = true →
    ∀ pos, lb ≤ pos → lb ≤ mapPos cs pos
  | [], _, _, pos, h => by simpa [mapPos] using h
  | c :: rest, lb, hch, pos, hlb => by
    simp only [changesChain, Bool.and_eq_true, decide_eq_true_eq] at hch
    obtain ⟨⟨h1, h2⟩, h3⟩ := hch
    by_cases hp1 : pos ≤ c.«from»
    · simpa [mapPos, hp1] using hlb
    · by_cases hp2 : pos < c.«to»
      · simp only [mapPos, if_neg hp1, if_pos hp2]
        omega
      · simp only [mapPos, if_neg hp1, if_neg hp2]
        have := mapPos_ge rest c.«to» h3 pos (by omega)
        omega

theorem mapPos_mono : ∀ (cs : List Change) (lb : Nat), changesChain lb cs = true →
    ∀ p q, p ≤ q → mapPos cs p ≤ mapPos cs q
  | [], _, _, p, q, h => by simpa [mapPos] using h
  | c :: rest, lb, hch, p, q, hpq => by
    simp only [changesChain, Bool.and_eq_true, decide_eq_true_eq] at hch
    obtain ⟨⟨h1, h2⟩, h3⟩ := hch
    have hmono := mapPos_mono rest c.«to» h3 p q hpq
    by_cases hp1 : p ≤ c.«from»
    · by_cases hq1 : q ≤ c.«from»
      · simpa [mapPos, hp1, hq1] using hpq
      · by_cases hq2 : q < c.«to»
        · simp only [mapPos, if_pos hp1, if_neg hq1, if_pos hq2]
          omega
        · have hgq := mapPos_ge rest c.«to» h3 q (by omega)
          simp only [mapPos, if_pos hp1, if_neg hq1, if_neg hq2]
          omega
    · have hq1 : ¬ q ≤ c.«from» := by omega
      by_cases hp2 : p < c.«to»
      · by_cases hq2 : q < c.«to»
        · simp only [mapPos, if_neg hp1, if_neg hq1, if_pos hp2, if_pos hq2]
          omega
        · have hgq := mapPos_ge rest c.«to» h3 q (by omega)
          simp only [mapPos, if_neg hp1, if_neg hq1, if_pos hp2, if_neg hq2]
          omega
      · have hq2 : ¬ q < c.«to» := by omega
        have hgp := mapPos_ge rest c.«to» h3 p (by omega)
        simp only [mapPos, if_neg hp1, if_neg hq1, if_neg hp2, if_neg hq2]
        omega

/-! Small helpers about the field state. -/

theorem remapMeta_id (cs : List Change) (m : ReviewMetadata) : (remapMeta cs m).id = m.id := rfl

theorem find?_metadata_append (l1 l2 : List ReviewMetadata) (i : String)
    (h : ∀ m ∈ l1, m.id ≠ i) :
    (l1 ++ l2).find? (fun m => m.id == i) = l2.find? (fun m => m.id == i) := by
  rw [List.find?_append]
  have h0 : l1.find? (fun m => m.id == i) = none :=
    List.find?_eq_none.mpr (by intro m hm; simpa using h m hm)
  rw [h0, Option.none_or]

theorem dispatch_single (s : EditorState) (c : Change) (effs : List ReviewEffect)
    (h1 : c.«from» ≤ c.«to») (h2 : c.«to» ≤ s.doc.length) :
    dispatch s { changes := [c], effects := effs } =
      some { doc := applyChange s.doc c
             field := reviewFieldUpdate s.field { changes := [c], effects := effs } } := by
  unfold dispatch
  rw [if_pos]
  · rfl
  · show (changesInRange s.doc.length [c] && changesChain 0 [c]) = true
    simp only [changesInRange, changesChain, List.all_cons, List.all_nil,
      Bool.and_eq_true, decide_eq_true_eq, and_true, true_and]
    omega

/-! Characterization of `addReview` on an attached editor. -/

theorem addReviewOn_eq (s : EditorState) (review : ReviewInterface) (g : String) :
    addReviewOn s review g =
      dispatch s
        { changes := [⟨addReviewInsertPos s review, addReviewInsertPos s review,
            '\n' :: review.improvedText⟩]
          effects := [.addReviewMetadataEffect (addReviewNewMeta s review g)] } := by
  unfold addReviewOn
  dsimp only
  rw [lineAt?_coe s.doc
        (clampLine (review.range.fromLine + (lineOffsetFor s.field.metadata review.range.fromLine : Int))
          (lineCount s.doc))
        (one_le_clampLine _ _) (clampLine_le _ _ (lineCount_pos s.doc)),
      lineAt?_coe s.doc
        (clampLine (review.range.toLine + (lineOffsetFor s.field.metadata review.range.fromLine : Int))
          (lineCount s.doc))
        (one_le_clampLine _ _) (clampLine_le _ _ (lineCount_pos s.doc))]
  rfl

theorem addReviewOn_some (s : EditorState) (review : ReviewInterface) (g : String) :
    addReviewOn s review g = some
      { doc := s.doc.take (addReviewInsertPos s review) ++ '\n' :: review.improvedText
          ++ s.doc.drop (addReviewInsertPos s review)
        field := reviewFieldUpdate s.field
          { changes := [⟨addReviewInsertPos s review, addReviewInsertPos s review,
              '\n' :: review.improvedText⟩]
            effects := [.addReviewMetadataEffect (addReviewNewMeta s review g)] } } := by
  rw [addReviewOn_eq,
    dispatch_single s _ _ (Nat.le_refl _)
      (lineTo_le_length _ _ (clampLine_le _ _ (lineCount_pos _)))]
  rfl

theorem reviewFieldUpdate_single_add (fld : ReviewFieldState) (c : Change) (m : ReviewMetadata) :
    (reviewFieldUpdate fld { changes := [c], effects := [.addReviewMetadataEffect m] }).metadata
      = fld.metadata.map (remapMeta [c]) ++ [m] := rfl

theorem addReviewNewMeta_id (s : EditorState) (review : ReviewInterface) (g : String) :
    (addReviewNewMeta s review g).id = review.id.getD g := rfl

/-- C3 (amended): for every attached editor state — including one that
already holds review records — `addReview` completes; it shifts the
requested line numbers by the accumulated improved-line count of earlier
records whose original to-line precedes the request's from-line, clamps the
shifted numbers into the valid line range, resolves those adjusted line
numbers against the current document to line-boundary offsets, captures
`originalText` as the exact current-document substring between the resolved
offsets, and inserts a newline plus the improved text at the end of the
resolved to-line.  (On an empty registry the shift is zero, giving the
claimed scenario; resolution of the raw request line numbers, as the claim
states it, fails on a non-empty registry, see the counterexample.) -/
theorem c3_addReview_resolves_adjusted (s : EditorState) (review : ReviewInterface) (g : String)
    (hfresh : ∀ m ∈ s.field.metadata, m.id ≠ review.id.getD g) :
    AddReviewResolves s review g := by
  refine ⟨_, addReviewOn_some s review g, rfl, addReviewNewMeta s review g, ?_, rfl, rfl, rfl, rfl, ?_⟩
  · show (reviewFieldUpdate s.field _).metadata.find? _ = _
    rw [reviewFieldUpdate_single_add,
      find?_metadata_append _ _ _ (by
        intro m hm
        obtain ⟨m0, hm0, rfl⟩ := List.mem_map.mp hm
        rw [remapMeta_id]
        exact hfresh m0 hm0)]
    simp [addReviewNewMeta_id]
  · show addReviewInsertPos s review + ('\n' :: review.improvedText).length
      = addReviewInsertPos s review + 1 + review.improvedText.length
    simp only [List.length_cons]
    omega

theorem getReviewMetadataOn_single (dd : DocText) (dec : List Deco) (m : ReviewMetadata) :
    getReviewMetadataOn { doc := dd, field := { decorations := dec, metadata := [m] } } m.id
      = some m := by
  unfold getReviewMetadataOn
  simp

theorem reviewFieldUpdate_single_remove_metadata (fld : ReviewFieldState) (c : Change)
    (i : String) :
    (reviewFieldUpdate fld { changes := [c], effects := [.removeReviewEffect i] }).metadata
      = match (fld.metadata.map (remapMeta [c])).find? (fun m => m.id == i) with
        | some _ => (fld.metadata.map (remapMeta [c])).filter (fun m => !(m.id == i))
        | none => fld.metadata.map (remapMeta [c]) := by
  unfold reviewFieldUpdate applyReviewEffect
  dsimp only
  cases h : (fld.metadata.map (remapMeta [c])).find? (fun m => m.id == i) <;> simp [h]

theorem addReviewOn_fresh (d improved : DocText) (nf nt : Nat) (rcl icl : Option String)
    (i g : String) (h1 : 1 ≤ nf) (h2 : nf ≤ nt) (h3 : nt ≤ lineCount d) :
    addReviewOn (freshEditor d)
        { plainRequest d nf nt improved i with rangeClassName := rcl, improvedClassName := icl } g
      = some
        { doc := d.take (lineTo d nt) ++ '\n' :: improved ++ d.drop (lineTo d nt)
          field :=
            { decorations := newDecorationsFor (freshMeta d nf nt improved rcl icl i)
              metadata := [freshMeta d nf nt improved rcl icl i] } } := by
  have hcf : addReviewClampedFromLine (freshEditor d)
      { plainRequest d nf nt improved i with rangeClassName := rcl, improvedClassName := icl }
      = nf := by
    show clampLine ((nf : Int) + ((0 : Nat) : Int)) (lineCount d) = nf
    rw [show ((nf : Int) + ((0 : Nat) : Int)) = (nf : Int) by simp]
    exact clampLine_coe nf _ h1 (le_trans h2 h3)
  have hct : addReviewClampedToLine (freshEditor d)
      { plainRequest d nf nt improved i with rangeClassName := rcl, improvedClassName := icl }
      = nt := by
    show clampLine ((nt : Int) + ((0 : Nat) : Int)) (lineCount d) = nt
    rw [show ((nt : Int) + ((0 : Nat) : Int)) = (nt : Int) by simp]
    exact clampLine_coe nt _ (le_trans h1 h2) h3
  have hP : addReviewInsertPos (freshEditor d)
      { plainRequest d nf nt improved i with rangeClassName := rcl, improvedClassName := icl }
      = lineTo d nt := by
    unfold addReviewInsertPos
    rw [hct]
    rfl
  have hM : addReviewNewMeta (freshEditor d)
      { plainRequest d nf nt improved i with rangeClassName := rcl, improvedClassName := icl } g
      = freshMeta d nf nt improved rcl icl i := by
    unfold addReviewNewMeta freshMeta
    rw [hcf, hP]
    rfl
  rw [addReviewOn_some, hP, hM]
  rfl

/-- C1: for every attached document, every span whose 1-indexed line
numbers agree with its character offsets, and every improved text,
`rejectReview` immediately after `addReview` on an empty registry yields a
document textually identical to the original: the deletion of
`[insertedFrom - 1, insertedTo)` removes exactly the inserted newline plus
improved text and nothing else. -/
theorem c1_reject_round_trip (d improved : DocText) (nf nt : Nat) (rcl icl : Option String)
    (i g : String) (h1 : 1 ≤ nf) (h2 : nf ≤ nt) (h3 : nt ≤ lineCount d) :
    RejectRoundTrip d nf nt improved rcl icl i g := by
  have hP : lineTo d nt ≤ d.length := lineTo_le_length d nt h3
  have hGet : getReviewMetadataOn
      { doc := d.take (lineTo d nt) ++ '\n' :: improved ++ d.drop (lineTo d nt)
        field := { decorations := newDecorationsFor (freshMeta d nf nt improved rcl icl i)
                   metadata := [freshMeta d nf nt improved rcl icl i] } } i
      = some (freshMeta d nf nt improved rcl icl i) :=
    getReviewMetadataOn_single _ _ _
  have hfrom : (freshMeta d nf nt improved rcl icl i).insertedFrom - 1
      ≤ (freshMeta d nf nt improved rcl icl i).insertedTo := by
    simp [freshMeta]
  have hto : (freshMeta d nf nt improved rcl icl i).insertedTo
      ≤ (d.take (lineTo d nt) ++ '\n' :: improved ++ d.drop (lineTo d nt)).length := by
    simp only [freshMeta, List.length_append, List.length_take, List.length_drop,
      List.length_cons]
    omega
  have ha : lineTo d nt ≤ (d.take (lineTo d nt) ++ '\n' :: improved).length := by
    simp only [List.length_append, List.length_take, List.length_cons]
    omega
  have hb : lineTo d nt ≤ (d.take (lineTo d nt)).length := by
    simp only [List.length_take]
    omega
  have hc : (d.take (lineTo d nt) ++ '\n' :: improved).length
      = lineTo d nt + ('\n' :: improved).length := by
    simp only [List.length_append, List.length_take, List.length_cons]
    omega
  have hrej : ∃ s2, rejectReviewOn
      { doc := d.take (lineTo d nt) ++ '\n' :: improved ++ d.drop (lineTo d nt)
        field := { decorations := newDecorationsFor (freshMeta d nf nt improved rcl icl i)
                   metadata := [freshMeta d nf nt improved rcl icl i] } } i
      = some s2 ∧ s2.doc = d := by
    unfold rejectReviewOn
    rw [hGet]
    dsimp only
    rw [dispatch_single _ _ _ hfrom hto]
    refine ⟨_, rfl, ?_⟩
    show applyChange _ _ = d
    simp only [applyChange]
    dsimp only [freshMeta]
    rw [Nat.add_sub_cancel, List.take_append_of_le_length ha,
      List.take_append_of_le_length hb, List.take_take, List.drop_left' hc]
    simp only [List.nil_append, Nat.min_self, List.append_nil]
    exact List.take_append_drop _ d
  obtain ⟨s2, hr, hd⟩ := hrej
  exact ⟨_, s2, addReviewOn_fresh d improved nf nt rcl icl i g h1 h2 h3, hr, hd⟩

/-- C2: for every attached document, span with agreeing line numbers and
offsets, and improved text, `acceptReview` immediately after `addReview` on
an empty registry yields the document with the substring at the span
removed and replaced by the improved text (the deletion covers
`[rangeFrom, rangeTo + 1)`, the `+1` consuming the inserted newline
separator), and afterwards `getReviewMetadata` reports not-found. -/
theorem c2_accept_round_trip (d improved : DocText) (nf nt : Nat) (rcl icl : Option String)
    (i g : String) (h1 : 1 ≤ nf) (h2 : nf ≤ nt) (h3 : nt ≤ lineCount d) :
    AcceptRoundTrip d nf nt improved rcl icl i g := by
  have hP : lineTo d nt ≤ d.length := lineTo_le_length d nt h3
  have hF : lineFrom d nf ≤ lineTo d nt :=
    le_trans (lineFrom_mono d h2) (lineFrom_le_lineTo d nt)
  have hGet : getReviewMetadataOn
      { doc := d.take (lineTo d nt) ++ '\n' :: improved ++ d.drop (lineTo d nt)
        field := { decorations := newDecorationsFor (freshMeta d nf nt improved rcl icl i)
                   metadata := [freshMeta d nf nt improved rcl icl i] } } i
      = some (freshMeta d nf nt improved rcl icl i) :=
    getReviewMetadataOn_single _ _ _
  have hfrom : (freshMeta d nf nt improved rcl icl i).rangeFrom
      ≤ (freshMeta d nf nt improved rcl icl i).rangeTo + 1 := by
    simp only [freshMeta]
    omega
  have hto : (freshMeta d nf nt improved rcl icl i).rangeTo + 1
      ≤ (d.take (lineTo d nt) ++ '\n' :: improved ++ d.drop (lineTo d nt)).length := by
    simp only [freshMeta, List.length_append, List.length_take, List.length_drop,
      List.length_cons]
    omega
  have ha : lineFrom d nf ≤ (d.take (lineTo d nt) ++ '\n' :: improved).length := by
    simp only [List.length_append, List.length_take, List.length_cons]
    omega
  have hb : lineFrom d nf ≤ (d.take (lineTo d nt)).length := by
    simp only [List.length_take]
    omega
  have hd1 : lineTo d nt + 1 ≤ (d.take (lineTo d nt) ++ '\n' :: improved).length := by
    simp only [List.length_append, List.length_take, List.length_cons]
    omega
  have hd2 : lineTo d nt ≤ (d.take (lineTo d nt)).length := by
    simp only [List.length_take]
    omega
  have hacc : ∃ s2, acceptReviewOn
      { doc := d.take (lineTo d nt) ++ '\n' :: improved ++ d.drop (lineTo d nt)
        field := { decorations := newDecorationsFor (freshMeta d nf nt improved rcl icl i)
                   metadata := [freshMeta d nf nt improved rcl icl i] } } i
      = some s2 ∧ s2.doc = d.take (lineFrom d nf) ++ improved ++ d.drop (lineTo d nt)
      ∧ getReviewMetadataOn s2 i = none := by
    unfold acceptReviewOn
    rw [hGet]
    dsimp only
    rw [dispatch_single _ _ _ hfrom hto]
    refine ⟨_, rfl, ?_, ?_⟩
    · show applyChange _ _ = _
      simp only [applyChange]
      dsimp only [freshMeta]
      rw [List.take_append_of_le_length ha, List.take_append_of_le_length hb,
        List.take_take, List.drop_append_of_le_length hd1, ← List.drop_drop,
        List.drop_append_of_le_length hd2, List.drop_take]
      simp [Nat.min_eq_left hF, Nat.min_eq_left hb]
    · show getReviewMetadataOn _ i = none
      unfold getReviewMetadataOn
      rw [reviewFieldUpdate_single_remove_metadata]
      simp [remapMeta_id, freshMeta]
  obtain ⟨s2, hr, hdoc, hnone⟩ := hacc
  exact ⟨_, s2, addReviewOn_fresh d improved nf nt rcl icl i g h1 h2 h3, hr, hdoc, hnone⟩

/-- Witness for C1: scenario 1 plus scenario 3 of the spec (`lines 1..1`,
improved text `"New Line 1"`, id `r1`) on `"Line 1\nLine 2\nLine 3"`. -/
theorem c1_reject_round_trip_witness :
    RejectRoundTrip scenarioDoc 1 1 "New Line 1".toList none none "r1" "g" :=
  c1_reject_round_trip scenarioDoc "New Line 1".toList 1 1 none none "r1" "g"
    (by decide) (by decide) (by decide)

/-- Witness for C2: scenario 1 plus scenario 2 of the spec. -/
theorem c2_accept_round_trip_witness :
    AcceptRoundTrip scenarioDoc 1 1 "New Line 1".toList none none "r1" "g" :=
  c2_accept_round_trip scenarioDoc "New Line 1".toList 1 1 none none "r1" "g"
    (by decide) (by decide) (by decide)

/-- Witness for C3 (amended): scenario 1 of the spec on an empty registry,
where the line offset is zero and resolution matches the claim. -/
theorem c3_addReview_resolves_adjusted_witness :
    AddReviewResolves (freshEditor scenarioDoc) scenarioReq1 "g" :=
  c3_addReview_resolves_adjusted (freshEditor scenarioDoc) scenarioReq1 "g" (by decide)

/-- Counterexample for C3 as stated: on the document `"A\nB"` with one
existing review (line 1, improved text `"X"`, which makes the current
document `"A\nX\nB"`), a second `addReview` over lines 2..2 captures
`originalText = "B"` (the line-offset-adjusted line 3 of the current
document), not the current document's line-2 substring `"X"` that the
claim's resolution rule predicts. -/
theorem c3_counterexample :
    ((addReviewOn (freshEditor docAB) reqX "g").bind fun s1 =>
        (addReviewOn s1 reqY "g").bind fun s2 =>
          (getReviewMetadataOn s2 "r2").map fun m =>
            (m.originalText, sliceString s1.doc (lineFrom s1.doc 2) (lineTo s1.doc 2)))
      = some ("B".toList, "X".toList)
    ∧ ("B".toList : DocText) ≠ "X".toList := by
  constructor
  · decide
  · decide

/-- C7: for every attached registry state (any records, any document) and
any id, `removeReview` and `clearReviews` complete and leave the document
text completely unchanged: they dispatch only decoration/metadata effects
and no document changes. -/
theorem c7_decoration_only_ops_keep_doc (s : EditorState) (i : String) :
    (∃ s1, removeReviewOn s i = some s1 ∧ s1.doc = s.doc) ∧
    (∃ s2, clearReviewsOn s = some s2 ∧ s2.doc = s.doc) :=
  ⟨⟨_, rfl, rfl⟩, ⟨_, rfl, rfl⟩⟩

/-- C9: when the host view is not attached, every mutating operation is a
silent no-op that never raises and changes no state, and
`getReviewMetadata` returns not-found. -/
theorem c9_unattached_noop (review : ReviewInterface) (genId : String)
    (reviews : List ReviewInterface) (genIds : Nat → String) (i : String) :
    addReview none review genId = some none ∧
    addReviews none reviews genIds = some none ∧
    removeReview none i = some none ∧
    clearReviews none = some none ∧
    acceptReview none i = some none ∧
    rejectReview none i = some none ∧
    getReviewMetadata none i = none :=
  ⟨rfl, rfl, rfl, rfl, rfl, rfl, rfl⟩

/-! Remap of positions across one unrelated edit. -/

theorem mapPos_single_after (E : Change) (x : Nat) (h : x ≤ E.«from») :
    mapPos [E] x = x := by
  simp [mapPos, h]

theorem mapPos_single_before (E : Change) (x : Nat) (hE : E.«from» ≤ E.«to»)
    (h : E.«to» ≤ x) (h2 : E.«from» < E.«to» ∨ E.«to» < x) :
    mapPos [E] x + E.«to» = x + E.«from» + E.insert.length := by
  have hx1 : ¬ x ≤ E.«from» := by omega
  have hx2 : ¬ x < E.«to» := by omega
  simp only [mapPos, if_neg hx1, if_neg hx2]
  omega

theorem slice_after_edit (d : DocText) (E : Change) (a b : Nat) (hE : E.«from» ≤ E.«to»)
    (hlenE : E.«to» ≤ d.length) (hb : b ≤ E.«from») :
    sliceString (applyChange d E) a b = sliceString d a b := by
  unfold sliceString applyChange
  have h1 : b ≤ (d.take E.«from»).length := by
    simp only [List.length_take]
    omega
  have h2 : b ≤ (d.take E.«from» ++ E.insert).length := by
    simp only [List.length_append, List.length_take]
    omega
  rw [List.take_append_of_le_length h2,
    List.take_append_of_le_length h1, List.take_take, Nat.min_eq_left hb]

theorem slice_before_edit (d : DocText) (E : Change) (a b a2 b2 : Nat)
    (hE : E.«from» ≤ E.«to») (hlenE : E.«to» ≤ d.length)
    (ha : E.«to» ≤ a) (hab : a ≤ b) (hb : b ≤ d.length)
    (ha2 : a2 + E.«to» = a + E.«from» + E.insert.length)
    (hb2 : b2 + E.«to» = b + E.«from» + E.insert.length) :
    sliceString (applyChange d E) a2 b2 = sliceString d a b := by
  unfold sliceString applyChange
  have hpre : (d.take E.«from» ++ E.insert).length = E.«from» + E.insert.length := by
    simp only [List.length_append, List.length_take]
    omega
  rw [show b2 = (d.take E.«from» ++ E.insert).length + (b - E.«to») by omega]
  rw [List.take_append]
  rw [show a2 = (d.take E.«from» ++ E.insert).length + (a - E.«to») by omega]
  rw [List.drop_append, List.take_drop, List.drop_drop]
  rw [show E.«to» + (b - E.«to») = b by omega, show E.«to» + (a - E.«to») = a by omega]

/-- C5: for every document, every live record, and every single edit `E`
whose range does not overlap the record's recorded offsets, the
per-transaction remap of the registry maps each recorded offset so that the
record's ranges still carry the same text, each offset adjusted exactly by
`E`'s length delta when `E` lies before it and unchanged when `E` lies
after it. -/
theorem c5_remap_unrelated_edit (d : DocText) (m : ReviewMetadata) (E : Change)
    (hE : E.«from» ≤ E.«to») (hlenE : E.«to» ≤ d.length)
    (hchain : MetaChain m) (hlen : m.insertedTo ≤ d.length) :
    UnrelatedEditRemapSpec d m E := by
  obtain ⟨hc1, hc2, hc3⟩ := hchain
  refine ⟨fun fld => rfl, ?_, ?_⟩
  · rintro ⟨hle, hside⟩
    have e1 := mapPos_single_before E m.rangeFrom hE hle hside
    have e2 := mapPos_single_before E m.rangeTo hE (by omega) (by omega)
    have e3 := mapPos_single_before E m.insertedFrom hE (by omega) (by omega)
    have e4 := mapPos_single_before E m.insertedTo hE (by omega) (by omega)
    refine ⟨⟨e1, e2, e3, e4⟩, ?_, ?_⟩
    · exact slice_before_edit d E m.rangeFrom m.rangeTo _ _ hE hlenE hle hc1 (by omega) e1 e2
    · exact slice_before_edit d E m.insertedFrom m.insertedTo _ _ hE hlenE (by omega) hc3
        hlen e3 e4
  · intro hge
    have e1 := mapPos_single_after E m.rangeFrom (by omega)
    have e2 := mapPos_single_after E m.rangeTo (by omega)
    have e3 := mapPos_single_after E m.insertedFrom (by omega)
    have e4 := mapPos_single_after E m.insertedTo (by omega)
    refine ⟨⟨e1, e2, e3, e4⟩, ?_, ?_⟩
    · show sliceString (applyChange d E) (mapPos [E] m.rangeFrom) (mapPos [E] m.rangeTo) = _
      rw [e1, e2]
      exact slice_after_edit d E m.rangeFrom m.rangeTo hE hlenE (by omega)
    · show sliceString (applyChange d E) (mapPos [E] m.insertedFrom) (mapPos [E] m.insertedTo) = _
      rw [e3, e4]
      exact slice_after_edit d E m.insertedFrom m.insertedTo hE hlenE (by omega)

/-- Witness for C5: a review over `[0,6)` with insertion `[7,17)` on the
scenario document, and an unrelated one-character replacement at `[18,19)`
after it. -/
theorem c5_remap_unrelated_edit_witness :
    UnrelatedEditRemapSpec scenarioDoc
      ⟨"r1", 0, 6, "Line 1".toList, 7, 17, none, none, some 1, some 1, some 1⟩
      ⟨18, 19, "Q".toList⟩ :=
  c5_remap_unrelated_edit _ _ _ (by decide) (by decide) (by decide) (by decide)

/-! Effect handling with no document changes, used for the duplicate-id and
decoration-only claims. -/

theorem reviewFieldUpdate_nochange_add_metadata (fld : ReviewFieldState) (m : ReviewMetadata) :
    (reviewFieldUpdate fld { changes := [], effects := [.addReviewMetadataEffect m] }).metadata
      = fld.metadata ++ [m] := rfl

theorem reviewFieldUpdate_nochange_remove_found (fld : ReviewFieldState) (i : String)
    (m : ReviewMetadata) (h : fld.metadata.find? (fun mm => mm.id == i) = some m) :
    reviewFieldUpdate fld { changes := [], effects := [.removeReviewEffect i] }
      = { decorations :=
            (fld.decorations.map (Deco.mapThrough [])).filter (fun dc => !(dc.reviewId == i))
          metadata := fld.metadata.filter (fun mm => !(mm.id == i)) } := by
  unfold reviewFieldUpdate applyReviewEffect
  simp only [List.foldl_cons, List.foldl_nil, List.isEmpty_nil, if_true]
  rw [h]

/-- C10: when two records carrying the same id are added, the registry
keeps both; `getReviewMetadata` then returns the record added first, while
a single `removeReview` deletes every record and every decoration carrying
that id. -/
theorem c10_duplicate_id_records (st : ReviewFieldState) (m1 m2 : ReviewMetadata) (i : String)
    (h1 : m1.id = i) (h2 : m2.id = i) (hfresh : ∀ m ∈ st.metadata, m.id ≠ i) :
    DupIdBehavior st m1 m2 i := by
  have hmd2 : (reviewFieldUpdate (reviewFieldUpdate st
      { changes := [], effects := [.addReviewMetadataEffect m1] })
      { changes := [], effects := [.addReviewMetadataEffect m2] }).metadata
      = st.metadata ++ [m1] ++ [m2] := by
    rw [reviewFieldUpdate_nochange_add_metadata, reviewFieldUpdate_nochange_add_metadata]
  have hfind : (st.metadata ++ [m1] ++ [m2]).find? (fun m => m.id == i) = some m1 := by
    rw [List.append_assoc, find?_metadata_append st.metadata _ i hfresh]
    simp [h1]
  unfold DupIdBehavior
  dsimp only
  have hrm := reviewFieldUpdate_nochange_remove_found
    (reviewFieldUpdate (reviewFieldUpdate st
      { changes := [], effects := [.addReviewMetadataEffect m1] })
      { changes := [], effects := [.addReviewMetadataEffect m2] }) i m1
    (by rw [hmd2]; exact hfind)
  refine ⟨?_, ?_, ?_, ?_, ?_⟩
  · rw [hmd2]
    simp
  · rw [hmd2]
    simp
  · rw [hmd2]
    exact hfind
  · rw [hrm]
    dsimp only
    rw [hmd2, List.filter_append, List.filter_append,
      List.filter_eq_self.mpr (by intro a ha; simpa using hfresh a ha)]
    simp [h1, h2]
  · rw [hrm]
    intro dc hdc
    rw [List.mem_filter] at hdc
    simpa using hdc.2

/-- Witness for C10: two distinct records with id `x` on an empty field. -/
theorem c10_duplicate_id_records_witness :
    DupIdBehavior ⟨[], []⟩
      ⟨"x", 0, 1, [], 2, 3, some "c1", some "c2", none, none, none⟩
      ⟨"x", 4, 5, [], 6, 7, none, none, none, none, none⟩ "x" :=
  c10_duplicate_id_records ⟨[], []⟩ _ _ "x" rfl rfl (by simp)

/-- C4 (bug evidence): on scenario 4's document of length 20, the batch
loop computes the second request's change at offset `22 = 20 + 2` (the end
of its to-line in the pre-batch document plus the accumulated offset), yet
the combined transaction's positions are interpreted against the pre-batch
document, so the change set fails the host surface's range validation
(`RangeError` on dispatch) and `addReviews` produces no new state instead
of the two insertions the claim describes. -/
theorem c4_batch_insert_positions_out_of_range :
    (addReviewsPlan scenarioDoc (fun _ => "g") [scenarioReqA, scenarioReqB] 0 0).map Prod.fst
      = some [⟨6, 6, ['\n', 'X']⟩, ⟨22, 22, ['\n', 'Y']⟩]
    ∧ scenarioDoc.length = 20
    ∧ changesInRange scenarioDoc.length [⟨6, 6, ['\n', 'X']⟩, ⟨22, 22, ['\n', 'Y']⟩] = false
    ∧ addReviewsOn (freshEditor scenarioDoc) [scenarioReqA, scenarioReqB] (fun _ => "g")
        = none := by
  refine ⟨?_, ?_, ?_, ?_⟩ <;> decide

/-! Out-of-range line numbers. -/

theorem lineAt?_none (d : DocText) (n : Int) (h : n < 1 ∨ (lineCount d : Int) < n) :
    lineAt? d n = none := by
  unfold lineAt?
  rw [if_neg]
  omega

theorem lineAt?_eq_some {d : DocText} {n : Int} {p : Nat × Nat} (h : lineAt? d n = some p) :
    p.1 = lineFrom d n.toNat ∧ p.2 = lineTo d n.toNat ∧ 1 ≤ n ∧ n ≤ (lineCount d : Int) := by
  unfold lineAt? at h
  by_cases hc : 1 ≤ n ∧ n ≤ (lineCount d : Int)
  · rw [if_pos hc] at h
    cases h
    exact ⟨rfl, rfl, hc.1, hc.2⟩
  · rw [if_neg hc] at h
    simp at h

theorem addReviewsPlan_none (d : DocText) (gen : Nat → String) :
    ∀ (reviews : List ReviewInterface) (acc idx : Nat) (r : ReviewInterface),
      r ∈ reviews → lineAt? d r.range.toLine = none →
      addReviewsPlan d gen reviews acc idx = none := by
  intro reviews
  induction reviews with
  | nil =>
    intro acc idx r hr _
    simp at hr
  | cons a rest ih =>
    intro acc idx r hr hnone
    unfold addReviewsPlan
    rcases List.mem_cons.mp hr with h | h
    · subst h
      rw [hnone]
    · cases hA : lineAt? d a.range.toLine with
      | none => rfl
      | some tl =>
        dsimp only
        rw [ih _ _ r h hnone]

/-- C8 (amended): out-of-range line numbers supplied to `addReview` are
clamped into `[1, totalLines]` and the operation always completes without
raising for every attached state and every request; `addReviews`, however,
performs no clamping: it resolves each request's raw to-line directly
against the line index, so any request whose to-line lies outside
`[1, totalLines]` makes the whole batch fail (the host's `doc.line`
raises) instead of being clamped. -/
theorem c8_clamp_policy :
    (∀ (s : EditorState) (review : ReviewInterface) (g : String),
      ∃ s1, addReviewOn s review g = some s1) ∧
    (∀ (s : EditorState) (review : ReviewInterface),
      1 ≤ addReviewClampedFromLine s review ∧
      addReviewClampedFromLine s review ≤ lineCount s.doc ∧
      1 ≤ addReviewClampedToLine s review ∧
      addReviewClampedToLine s review ≤ lineCount s.doc) ∧
    (∀ (s : EditorState) (reviews : List ReviewInterface) (gen : Nat → String)
      (r : ReviewInterface), r ∈ reviews →
      (r.range.toLine < 1 ∨ (lineCount s.doc : Int) < r.range.toLine) →
      addReviewsOn s reviews gen = none) := by
  refine ⟨?_, ?_, ?_⟩
  · intro s review g
    exact ⟨_, addReviewOn_some s review g⟩
  · intro s review
    exact ⟨one_le_clampLine _ _, clampLine_le _ _ (lineCount_pos _),
      one_le_clampLine _ _, clampLine_le _ _ (lineCount_pos _)⟩
  · intro s reviews gen r hr hout
    unfold addReviewsOn
    rw [addReviewsPlan_none s.doc gen reviews 0 0 r hr (lineAt?_none _ _ hout)]

/-- Witness for C8: the request over lines 5..5 of the three-line scenario
document completes through `addReview` but fails the whole `addReviews`
batch. -/
theorem c8_clamp_policy_witness :
    (∃ s1, addReviewOn (freshEditor scenarioDoc) reqBeyond "g" = some s1) ∧
    addReviewsOn (freshEditor scenarioDoc) [reqBeyond] (fun _ => "g") = none :=
  ⟨c8_clamp_policy.1 (freshEditor scenarioDoc) reqBeyond "g",
   c8_clamp_policy.2.2 (freshEditor scenarioDoc) [reqBeyond] (fun _ => "g") reqBeyond
     (by decide) (by decide)⟩

/-- Counterexample for C8 as stated: the clamping policy does not apply to
requests handled by `addReviews` — a single request over lines 5..5 of the
three-line scenario document makes the batch fail (`doc.line(5)` raises,
modelled as `none`) rather than being clamped to line 3. -/
theorem c8_counterexample :
    addReviewsOn (freshEditor scenarioDoc) [reqBeyond] (fun _ => "g") = none := by
  decide

/-- C6: the offset ordering `rangeFrom ≤ rangeTo ≤ insertedFrom ≤
insertedTo` holds for the record created by `addReview` (under the
precondition that the request's from-line does not exceed its to-line, part
of "span offsets agree with line numbers"), holds for every record created
by `addReviews` (under the agreement precondition on each span), and is
preserved by the position remap that every document change applies to
every live record. -/
theorem c6_offset_ordering_invariant :
    (∀ (s : EditorState) (review : ReviewInterface) (g : String),
      review.range.fromLine ≤ review.range.toLine →
      ∃ s1, addReviewOn s review g = some s1 ∧
        s1.field.metadata.getLast? = some (addReviewNewMeta s review g) ∧
        MetaChain (addReviewNewMeta s review g)) ∧
    (∀ (d : DocText) (gen : Nat → String) (reviews : List ReviewInterface)
      (acc idx : Nat) (cs : List Change) (ms : List ReviewMetadata),
      (∀ r ∈ reviews, r.range.«from» ≤ r.range.«to» ∧
        r.range.«to» = lineTo d r.range.toLine.toNat) →
      addReviewsPlan d gen reviews acc idx = some (cs, ms) →
      ∀ m ∈ ms, MetaChain m) ∧
    (∀ (cs : List Change) (m : ReviewMetadata), changesChain 0 cs = true →
      MetaChain m → MetaChain (remapMeta cs m)) := by
  refine ⟨?_, ?_, ?_⟩
  · intro s review g hle
    refine ⟨_, addReviewOn_some s review g, ?_, ?_, ?_, ?_⟩
    · show (_ ++ [addReviewNewMeta s review g]).getLast? = _
      simp
    · show lineFrom s.doc (addReviewClampedFromLine s review) ≤ addReviewInsertPos s review
      have hmono : addReviewClampedFromLine s review ≤ addReviewClampedToLine s review :=
        clampLine_mono _ (by omega)
      exact le_trans (lineFrom_mono s.doc hmono) (lineFrom_le_lineTo s.doc _)
    · show addReviewInsertPos s review ≤ addReviewInsertPos s review + 1
      omega
    · show addReviewInsertPos s review + 1
        ≤ addReviewInsertPos s review + ('\n' :: review.improvedText).length
      simp only [List.length_cons]
      omega
  · intro d gen reviews
    induction reviews with
    | nil =>
      intro acc idx cs ms _ hplan m hm
      unfold addReviewsPlan at hplan
      injection hplan with h
      injection h with h1 h2
      subst h2
      simp at hm
    | cons a rest ih =>
      intro acc idx cs ms hagree hplan m hm
      unfold addReviewsPlan at hplan
      cases hA : lineAt? d a.range.toLine with
      | none =>
        rw [hA] at hplan
        simp at hplan
      | some tl =>
        rw [hA] at hplan
        dsimp only at hplan
        cases hR : addReviewsPlan d gen rest (acc + ('\n' :: a.improvedText).length) (idx + 1) with
        | none =>
          rw [hR] at hplan
          simp at hplan
        | some pr =>
          obtain ⟨cs2, ms2⟩ := pr
          rw [hR] at hplan
          dsimp only at hplan
          injection hplan with h
          injection h with h1 h2
          subst h2
          rcases List.mem_cons.mp hm with hm1 | hm2
          · subst hm1
            obtain ⟨hft, hto⟩ := hagree a (List.mem_cons_self a rest)
            have heq : a.range.«to» = tl.2 := by
              rw [hto, (lineAt?_eq_some hA).2.1]
            refine ⟨?_, ?_, ?_⟩ <;> dsimp only
            · exact Nat.add_le_add_right hft acc
            · rw [heq]
              exact Nat.le_succ _
            · simp only [List.length_cons]
              exact Nat.add_le_add_left (Nat.succ_le_succ (Nat.zero_le _)) _
          · exact ih (acc + ('\n' :: a.improvedText).length) (idx + 1) cs2 ms2
              (fun r hr => hagree r (List.mem_cons_of_mem a hr)) hR m hm2
  · intro cs m hch hm
    obtain ⟨h1, h2, h3⟩ := hm
    exact ⟨mapPos_mono cs 0 hch _ _ h1, mapPos_mono cs 0 hch _ _ h2,
      mapPos_mono cs 0 hch _ _ h3⟩

/-- Witness for C6: scenario-1 request through `addReview`, a one-request
batch through the `addReviews` loop, and a remap through a concrete sorted
replacement. -/
theorem c6_offset_ordering_invariant_witness :
    (∃ s1, addReviewOn (freshEditor scenarioDoc) scenarioReq1 "g" = some s1 ∧
      s1.field.metadata.getLast?
        = some (addReviewNewMeta (freshEditor scenarioDoc) scenarioReq1 "g") ∧
      MetaChain (addReviewNewMeta (freshEditor scenarioDoc) scenarioReq1 "g")) ∧
    (∀ m ∈ [(⟨"a", 0, 6, "Line 1".toList, 7, 8, none, none, none, none, none⟩ : ReviewMetadata)],
      MetaChain m) ∧
    MetaChain (remapMeta [⟨0, 2, "ab".toList⟩]
      ⟨"m", 3, 4, [], 5, 6, none, none, none, none, none⟩) :=
  ⟨c6_offset_ordering_invariant.1 (freshEditor scenarioDoc) scenarioReq1 "g" (by decide),
   c6_offset_ordering_invariant.2.1 scenarioDoc (fun _ => "g") [scenarioReqA] 0 0
     [⟨6, 6, ['\n', 'X']⟩] [⟨"a", 0, 6, "Line 1".toList, 7, 8, none, none, none, none, none⟩]
     (by decide) (by decide),
   c6_offset_ordering_invariant.2.2 [⟨0, 2, "ab".toList⟩]
     ⟨"m", 3, 4, [], 5, 6, none, none, none, none, none⟩ (by decide) (by decide)⟩

end CmeLineReplace
